import Mathlib

/-!
Verification of the hyprnote encryption core
(`src/crates/encryption` and `src/plugins/encryption`).

Bytes are modelled as `Nat`, Rust byte slices as `List Nat`.  The external
`aes_gcm` and `argon2` crates are not part of the repository: the AEAD cipher
is modelled from the spec (see `gcmSeal` / `gcmOpen`), and the Argon2id call is
a function parameter `kdf` threaded through the key-manager operations.
Randomness (the OS RNG used for nonces and salts) is modelled by explicit
parameters, so every "for all random draws" statement is a plain universal
quantifier.
-/

namespace Hyprnote

/-- `EncryptionError` from `src/crates/encryption/src/error.rs`. -/
inductive EncryptionError where
  | KeyDerivation (msg : String)
  | Encryption (msg : String)
  | Decryption (msg : String)
  | KeyNotAvailable
  | SaltNotAvailable
  | FileOperation (msg : String)
  | AeadError
  | Other (msg : String)
deriving DecidableEq, Repr

/-- An injective code of a byte list into a single `Nat`, used by the
spec-modelled AEAD tag below. -/
def encodeList : List Nat → Nat
  | [] => 0
  | x :: xs => Nat.pair x (encodeList xs) + 1

theorem encodeList_injective : Function.Injective encodeList := by
  intro xs
  induction xs with
  | nil =>
    intro ys h
    cases ys with
    | nil => rfl
    | cons y ys => simp [encodeList] at h
  | cons x xs ih =>
    intro ys h
    cases ys with
    | nil => simp [encodeList] at h
    | cons y ys =>
      simp only [encodeList, Nat.add_right_cancel_iff] at h
      rcases Nat.pair_eq_pair.mp h with ⟨h1, h2⟩
      rw [h1, ih h2]

/-- Modelled from the spec: the CTR keystream of the `aes_gcm` crate's
AES-256-GCM cipher (external library, not in `src/`).  One keystream byte per
plaintext position, a deterministic function of key, nonce and position. -/
def keystreamByte (key nonce : List Nat) (i : Nat) : Nat :=
  Nat.pair (encodeList key) (Nat.pair (encodeList nonce) i) % 256

/-- XOR-mask a byte list with the keystream starting at position `i`.
Applying it twice restores the input (CTR encryption equals decryption). -/
def maskFrom (key nonce : List Nat) (i : Nat) : List Nat → List Nat
  | [] => []
  | b :: bs => (b ^^^ keystreamByte key nonce i) :: maskFrom key nonce (i + 1) bs

theorem maskFrom_length (key nonce : List Nat) (i : Nat) (bs : List Nat) :
    (maskFrom key nonce i bs).length = bs.length := by
  induction bs generalizing i with
  | nil => rfl
  | cons b bs ih => simp [maskFrom, ih]

theorem maskFrom_maskFrom (key nonce : List Nat) (i : Nat) (bs : List Nat) :
    maskFrom key nonce i (maskFrom key nonce i bs) = bs := by
  induction bs generalizing i with
  | nil => rfl
  | cons b bs ih =>
    simp only [maskFrom, ih, List.cons.injEq, and_true]
    rw [Nat.xor_assoc, Nat.xor_self, Nat.xor_zero]

/-- Modelled from the spec: CTR encryption of the plaintext under key and
nonce, the `ciphertext(variable)` part of the blob layout
`nonce(12) || ciphertext || tag(16)`. -/
def gcmMask (key nonce pt : List Nat) : List Nat :=
  maskFrom key nonce 0 pt

theorem gcmMask_length (key nonce pt : List Nat) :
    (gcmMask key nonce pt).length = pt.length :=
  maskFrom_length key nonce 0 pt

theorem gcmMask_gcmMask (key nonce pt : List Nat) :
    gcmMask key nonce (gcmMask key nonce pt) = pt :=
  maskFrom_maskFrom key nonce 0 pt

/-- Modelled from the spec: the 16-byte GHASH authentication tag of
AES-256-GCM (external `aes_gcm` crate, not in `src/`).  The spec requires
that any mutation of nonce, ciphertext or associated data is detected, so the
model makes the first tag entry an injective code of (key, nonce, aad,
ciphertext) and pads with fifteen zero entries to the 16-entry tag length. -/
def gcmTag (key nonce aad ct : List Nat) : Nat :=
  Nat.pair (encodeList key)
    (Nat.pair (encodeList nonce) (Nat.pair (encodeList aad) (encodeList ct)))

theorem gcmTag_inj {key nonce aad ct key₂ nonce₂ aad₂ ct₂ : List Nat}
    (h : gcmTag key nonce aad ct = gcmTag key₂ nonce₂ aad₂ ct₂) :
    key = key₂ ∧ nonce = nonce₂ ∧ aad = aad₂ ∧ ct = ct₂ := by
  unfold gcmTag at h
  rcases Nat.pair_eq_pair.mp h with ⟨h1, h2⟩
  rcases Nat.pair_eq_pair.mp h2 with ⟨h3, h4⟩
  rcases Nat.pair_eq_pair.mp h4 with ⟨h5, h6⟩
  exact ⟨encodeList_injective h1, encodeList_injective h3,
    encodeList_injective h5, encodeList_injective h6⟩

/-- The 16-entry tag block appended after the ciphertext. -/
def tagBlock (key nonce aad ct : List Nat) : List Nat :=
  gcmTag key nonce aad ct :: List.replicate 15 0

theorem tagBlock_length (key nonce aad ct : List Nat) :
    (tagBlock key nonce aad ct).length = 16 := by
  simp [tagBlock]

/-- Modelled from the spec: `Aes256Gcm::encrypt` of the external `aes_gcm`
crate — authenticated encryption producing `ciphertext || tag`. -/
def gcmSeal (key nonce aad pt : List Nat) : List Nat :=
  gcmMask key nonce pt ++ tagBlock key nonce aad (gcmMask key nonce pt)

theorem gcmSeal_length (key nonce aad pt : List Nat) :
    (gcmSeal key nonce aad pt).length = pt.length + 16 := by
  simp [gcmSeal, gcmMask_length, tagBlock_length]

/-- Modelled from the spec: `Aes256Gcm::decrypt` of the external `aes_gcm`
crate — splits off the 16-entry tag, recomputes it over the received
ciphertext, and releases the plaintext only when the tags agree. -/
def gcmOpen (key nonce aad data : List Nat) : Option (List Nat) :=
  if data.length < 16 then none
  else
    let ct := data.take (data.length - 16)
    let tagPart := data.drop (data.length - 16)
    if tagPart = tagBlock key nonce aad ct then some (gcmMask key nonce ct)
    else none

/-- AEAD correctness: opening a sealed message returns the plaintext. -/
theorem gcmOpen_gcmSeal (key nonce aad pt : List Nat) :
    gcmOpen key nonce aad (gcmSeal key nonce aad pt) = some pt := by
  have hlen := gcmSeal_length key nonce aad pt
  have hct : (gcmSeal key nonce aad pt).length - 16 = (gcmMask key nonce pt).length := by
    rw [hlen, gcmMask_length]; omega
  unfold gcmOpen
  rw [if_neg (by omega)]
  simp only [hct]
  rw [gcmSeal, List.take_left, List.drop_left, if_pos rfl, gcmMask_gcmMask]

/-- Rigidity: `gcmOpen` succeeds only on data that is exactly the seal of the
returned plaintext under the same key, nonce and aad. -/
theorem gcmOpen_rigid {key nonce aad data pt : List Nat}
    (h : gcmOpen key nonce aad data = some pt) :
    data = gcmSeal key nonce aad pt := by
  unfold gcmOpen at h
  by_cases hlen : data.length < 16
  · rw [if_pos hlen] at h; exact absurd h (by simp)
  · rw [if_neg hlen] at h
    set ct := data.take (data.length - 16) with hct
    set tagPart := data.drop (data.length - 16) with htp
    by_cases htag : tagPart = tagBlock key nonce aad ct
    · rw [if_pos htag] at h
      have hpt : pt = gcmMask key nonce ct := by
        injection h with h; exact h.symm
      have hmask : gcmMask key nonce pt = ct := by
        rw [hpt, gcmMask_gcmMask]
      rw [gcmSeal, hmask, ← htag, hct, htp, List.take_append_drop]
    · rw [if_neg htag] at h; exact absurd h (by simp)

/-- Seal is injective in key, nonce, aad and plaintext. -/
theorem gcmSeal_inj {key nonce aad pt key₂ nonce₂ aad₂ pt₂ : List Nat}
    (h : gcmSeal key nonce aad pt = gcmSeal key₂ nonce₂ aad₂ pt₂) :
    key = key₂ ∧ nonce = nonce₂ ∧ aad = aad₂ ∧ pt = pt₂ := by
  have hlen : pt.length = pt₂.length := by
    have := congrArg List.length h
    rw [gcmSeal_length, gcmSeal_length] at this
    omega
  have hmlen : (gcmMask key nonce pt).length = (gcmMask key₂ nonce₂ pt₂).length := by
    rw [gcmMask_length, gcmMask_length, hlen]
  rcases List.append_inj h hmlen with ⟨hm, ht⟩
  have htag : gcmTag key nonce aad (gcmMask key nonce pt)
      = gcmTag key₂ nonce₂ aad₂ (gcmMask key₂ nonce₂ pt₂) := by
    have := congrArg (fun l => l.headD 0) ht
    simpa [tagBlock] using this
  rcases gcmTag_inj htag with ⟨hk, hn, ha, _⟩
  refine ⟨hk, hn, ha, ?_⟩
  have : gcmMask key nonce (gcmMask key nonce pt)
      = gcmMask key nonce (gcmMask key₂ nonce₂ pt₂) := by rw [hm]
  rw [gcmMask_gcmMask, hk, hn, gcmMask_gcmMask] at this
  exact this

/-! ## The repository's AEAD wrappers, `src/crates/encryption/src/crypto.rs`

The source draws the 12-byte nonce from `OsRng`; here the nonce is an explicit
`iv` argument, so a theorem quantifying over `iv` covers every random draw. -/

/-- `IV_SIZE` from `src/crates/encryption/src/crypto.rs:10`. -/
def IV_SIZE : Nat := 12

/-- `encrypt_bytes` (`crypto.rs:27-47`): key-length check from
`Aes256Gcm::new_from_slice`, then nonce ‖ ciphertext ‖ tag. -/
def encrypt_bytes (key iv plaintext : List Nat) : Except EncryptionError (List Nat) :=
  if key.length = 32 then
    Except.ok (iv ++ gcmSeal key iv [] plaintext)
  else Except.error (EncryptionError.Encryption "Invalid key length")

/-- `encrypt_bytes_with_aad` (`crypto.rs:63-89`). -/
def encrypt_bytes_with_aad (key iv plaintext aad : List Nat) :
    Except EncryptionError (List Nat) :=
  if key.length = 32 then
    Except.ok (iv ++ gcmSeal key iv aad plaintext)
  else Except.error (EncryptionError.Encryption "Invalid key length")

/-- `decrypt_bytes` (`crypto.rs:105-124`): length guard first, then split the
nonce off, then the key-length check of `new_from_slice`, then the cipher. -/
def decrypt_bytes (key data : List Nat) : Except EncryptionError (List Nat) :=
  if data.length ≤ IV_SIZE then
    Except.error (EncryptionError.Decryption "Data too short")
  else
    let iv := data.take IV_SIZE
    let ciphertext := data.drop IV_SIZE
    if key.length = 32 then
      match gcmOpen key iv [] ciphertext with
      | some plaintext => Except.ok plaintext
      | none => Except.error EncryptionError.AeadError
    else Except.error (EncryptionError.Decryption "Invalid key length")

/-- `decrypt_bytes_with_aad` (`crypto.rs:140-165`). -/
def decrypt_bytes_with_aad (key data aad : List Nat) :
    Except EncryptionError (List Nat) :=
  if data.length ≤ IV_SIZE then
    Except.error (EncryptionError.Decryption "Data too short")
  else
    let iv := data.take IV_SIZE
    let ciphertext := data.drop IV_SIZE
    if key.length = 32 then
      match gcmOpen key iv aad ciphertext with
      | some plaintext => Except.ok plaintext
      | none => Except.error EncryptionError.AeadError
    else Except.error (EncryptionError.Decryption "Invalid key length")

theorem encrypt_blob_length (key iv pt aad : List Nat) (hiv : iv.length = 12) :
    (iv ++ gcmSeal key iv aad pt).length = 12 + (pt.length + 16) := by
  simp [gcmSeal_length, hiv]

theorem decrypt_of_encrypted (key iv pt aad : List Nat) (hk : key.length = 32)
    (hiv : iv.length = 12) :
    decrypt_bytes_with_aad key (iv ++ gcmSeal key iv aad pt) aad = Except.ok pt := by
  have hlen := encrypt_blob_length key iv pt aad hiv
  unfold decrypt_bytes_with_aad
  rw [if_neg (by rw [hlen]; simp [IV_SIZE])]
  have htake : (iv ++ gcmSeal key iv aad pt).take IV_SIZE = iv := by
    rw [IV_SIZE, ← hiv, List.take_left]
  have hdrop : (iv ++ gcmSeal key iv aad pt).drop IV_SIZE = gcmSeal key iv aad pt := by
    rw [IV_SIZE, ← hiv, List.drop_left]
  simp only [htake, hdrop, if_pos hk, gcmOpen_gcmSeal]

/-! ## Helpers about single-entry mutation of byte lists -/

theorem getD_set_self (l : List Nat) (j v : Nat) (hj : j < l.length) :
    (l.set j v).getD j 0 = v := by
  rw [List.getD_eq_getElem _ _ (by rw [List.length_set]; exact hj)]
  exact List.getElem_set_self _

theorem getD_append_left (l₁ l₂ : List Nat) (j : Nat) (h : j < l₁.length) :
    (l₁ ++ l₂).getD j 0 = l₁.getD j 0 := by
  rw [List.getD_eq_getElem _ _ (by simp only [List.length_append]; omega),
    List.getD_eq_getElem _ _ h]
  exact List.getElem_append_left h

theorem getD_append_right (l₁ l₂ : List Nat) (j : Nat) (h : l₁.length ≤ j)
    (h₂ : j < l₁.length + l₂.length) :
    (l₁ ++ l₂).getD j 0 = l₂.getD (j - l₁.length) 0 := by
  rw [List.getD_eq_getElem _ _ (by simp only [List.length_append]; omega),
    List.getD_eq_getElem _ _ (by omega)]
  exact List.getElem_append_right h

/-- Any change of a single entry of a sealed message (ciphertext or tag
region) is rejected by `gcmOpen`. -/
theorem gcmOpen_set_ne (key iv aad pt : List Nat) (j v : Nat)
    (hj : j < pt.length + 16)
    (hv : v ≠ (gcmSeal key iv aad pt).getD j 0) :
    gcmOpen key iv aad ((gcmSeal key iv aad pt).set j v) = none := by
  have hmlen : (gcmMask key iv pt).length = pt.length := gcmMask_length key iv pt
  have htlen : (tagBlock key iv aad (gcmMask key iv pt)).length = 16 :=
    tagBlock_length key iv aad (gcmMask key iv pt)
  cases hopen : gcmOpen key iv aad ((gcmSeal key iv aad pt).set j v) with
  | none => rfl
  | some p =>
    exfalso
    have hrig := gcmOpen_rigid hopen
    have hplen : p.length = pt.length := by
      have := congrArg List.length hrig
      rw [List.length_set, gcmSeal_length, gcmSeal_length] at this
      omega
    have hseal : gcmSeal key iv aad pt
        = gcmMask key iv pt ++ tagBlock key iv aad (gcmMask key iv pt) := rfl
    rw [hseal, List.set_append] at hrig
    by_cases hcase : j < (gcmMask key iv pt).length
    · rw [if_pos hcase] at hrig
      rw [gcmSeal] at hrig
      have hlen2 : ((gcmMask key iv pt).set j v).length = (gcmMask key iv p).length := by
        rw [List.length_set, hmlen, gcmMask_length, hplen]
      rcases List.append_inj hrig hlen2 with ⟨h1, h2⟩
      have htag : gcmTag key iv aad (gcmMask key iv pt)
          = gcmTag key iv aad (gcmMask key iv p) := by
        have := congrArg (fun t => t.headD 0) h2
        simpa [tagBlock] using this
      have hceq : gcmMask key iv pt = gcmMask key iv p := (gcmTag_inj htag).2.2.2
      rw [← hceq] at h1
      apply hv
      have hv2 : v = (gcmMask key iv pt).getD j 0 := by
        rw [← getD_set_self (gcmMask key iv pt) j v hcase, h1]
      rw [hseal, getD_append_left _ _ _ hcase]
      exact hv2
    · rw [if_neg hcase] at hrig
      have hr : j - (gcmMask key iv pt).length < 16 := by omega
      rw [gcmSeal] at hrig
      have hlen2 : (gcmMask key iv pt).length = (gcmMask key iv p).length := by
        rw [hmlen, gcmMask_length, hplen]
      rcases List.append_inj hrig hlen2 with ⟨h1, h2⟩
      rw [← h1] at h2
      apply hv
      have hv2 : v = (tagBlock key iv aad (gcmMask key iv pt)).getD
          (j - (gcmMask key iv pt).length) 0 := by
        rw [← getD_set_self (tagBlock key iv aad (gcmMask key iv pt))
          (j - (gcmMask key iv pt).length) v (by omega), h2]
      rw [hseal, getD_append_right _ _ _ (by omega) (by omega)]
      exact hv2

/-- C3: for every 32-byte key, every 12-byte nonce draw and every plaintext,
`encrypt_bytes` returns the blob `nonce ++ gcmSeal key nonce [] pt` and
`decrypt_bytes` of that blob under the same key returns exactly the original
plaintext. -/
theorem encrypt_decrypt_roundtrip (key iv pt : List Nat)
    (hk : key.length = 32) (hiv : iv.length = 12) :
    encrypt_bytes key iv pt = Except.ok (iv ++ gcmSeal key iv [] pt) ∧
    decrypt_bytes key (iv ++ gcmSeal key iv [] pt) = Except.ok pt := by
  constructor
  · rw [encrypt_bytes, if_pos hk]
  · have hlen := encrypt_blob_length key iv pt [] hiv
    rw [decrypt_bytes]
    rw [if_neg (by rw [hlen]; simp [IV_SIZE])]
    have htake : (iv ++ gcmSeal key iv [] pt).take IV_SIZE = iv := by
      rw [IV_SIZE, ← hiv, List.take_left]
    have hdrop : (iv ++ gcmSeal key iv [] pt).drop IV_SIZE = gcmSeal key iv [] pt := by
      rw [IV_SIZE, ← hiv, List.drop_left]
    simp only [htake, hdrop, if_pos hk, gcmOpen_gcmSeal]

/-- C3 witness at concrete inputs. -/
theorem encrypt_decrypt_roundtrip_witness :
    encrypt_bytes (List.replicate 32 0) [0, 0, 0, 0, 0, 0, 0, 0, 0, 0, 0, 0] [1, 2, 3]
      = Except.ok ([0, 0, 0, 0, 0, 0, 0, 0, 0, 0, 0, 0]
          ++ gcmSeal (List.replicate 32 0) [0, 0, 0, 0, 0, 0, 0, 0, 0, 0, 0, 0] [] [1, 2, 3]) ∧
    decrypt_bytes (List.replicate 32 0)
        ([0, 0, 0, 0, 0, 0, 0, 0, 0, 0, 0, 0]
          ++ gcmSeal (List.replicate 32 0) [0, 0, 0, 0, 0, 0, 0, 0, 0, 0, 0, 0] [] [1, 2, 3])
      = Except.ok [1, 2, 3] :=
  encrypt_decrypt_roundtrip (List.replicate 32 0)
    [0, 0, 0, 0, 0, 0, 0, 0, 0, 0, 0, 0] [1, 2, 3] (by decide) (by decide)

/-- C4: for every 32-byte key, nonce draw, plaintext and aad, decrypting the
blob produced by `encrypt_bytes_with_aad` under the same aad returns the
plaintext, and decrypting it under any different aad fails with `AeadError`. -/
theorem aad_roundtrip_and_mismatch (key iv pt aad aad₂ : List Nat)
    (hk : key.length = 32) (hiv : iv.length = 12) (hne : aad₂ ≠ aad) :
    encrypt_bytes_with_aad key iv pt aad = Except.ok (iv ++ gcmSeal key iv aad pt) ∧
    decrypt_bytes_with_aad key (iv ++ gcmSeal key iv aad pt) aad = Except.ok pt ∧
    decrypt_bytes_with_aad key (iv ++ gcmSeal key iv aad pt) aad₂
      = Except.error EncryptionError.AeadError := by
  refine ⟨by rw [encrypt_bytes_with_aad, if_pos hk],
    decrypt_of_encrypted key iv pt aad hk hiv, ?_⟩
  have hlen := encrypt_blob_length key iv pt aad hiv
  rw [decrypt_bytes_with_aad]
  rw [if_neg (by rw [hlen]; simp [IV_SIZE])]
  have htake : (iv ++ gcmSeal key iv aad pt).take IV_SIZE = iv := by
    rw [IV_SIZE, ← hiv, List.take_left]
  have hdrop : (iv ++ gcmSeal key iv aad pt).drop IV_SIZE = gcmSeal key iv aad pt := by
    rw [IV_SIZE, ← hiv, List.drop_left]
  simp only [htake, hdrop, if_pos hk]
  have hopen : gcmOpen key iv aad₂ (gcmSeal key iv aad pt) = none := by
    cases hop : gcmOpen key iv aad₂ (gcmSeal key iv aad pt) with
    | none => rfl
    | some p =>
      exfalso
      exact hne ((gcmSeal_inj (gcmOpen_rigid hop).symm).2.2.1)
  rw [hopen]

/-- C4 witness at concrete inputs. -/
theorem aad_roundtrip_and_mismatch_witness :
    encrypt_bytes_with_aad (List.replicate 32 0) [0, 0, 0, 0, 0, 0, 0, 0, 0, 0, 0, 0] [5] [1]
      = Except.ok ([0, 0, 0, 0, 0, 0, 0, 0, 0, 0, 0, 0]
          ++ gcmSeal (List.replicate 32 0) [0, 0, 0, 0, 0, 0, 0, 0, 0, 0, 0, 0] [1] [5]) ∧
    decrypt_bytes_with_aad (List.replicate 32 0)
        ([0, 0, 0, 0, 0, 0, 0, 0, 0, 0, 0, 0]
          ++ gcmSeal (List.replicate 32 0) [0, 0, 0, 0, 0, 0, 0, 0, 0, 0, 0, 0] [1] [5]) [1]
      = Except.ok [5] ∧
    decrypt_bytes_with_aad (List.replicate 32 0)
        ([0, 0, 0, 0, 0, 0, 0, 0, 0, 0, 0, 0]
          ++ gcmSeal (List.replicate 32 0) [0, 0, 0, 0, 0, 0, 0, 0, 0, 0, 0, 0] [1] [5]) [2]
      = Except.error EncryptionError.AeadError :=
  aad_roundtrip_and_mismatch (List.replicate 32 0) [0, 0, 0, 0, 0, 0, 0, 0, 0, 0, 0, 0]
    [5] [1] [2] (by decide) (by decide) (by decide)

/-- C5: changing any single byte of an encrypted blob — in the nonce region,
the ciphertext or the tag — makes decryption under the same key fail with
`AeadError`; it never returns altered plaintext. -/
theorem decrypt_rejects_byte_flip (key iv pt : List Nat) (i v : Nat)
    (hk : key.length = 32) (hiv : iv.length = 12)
    (hi : i < 12 + (pt.length + 16))
    (hv : v ≠ (iv ++ gcmSeal key iv [] pt).getD i 0) :
    decrypt_bytes key ((iv ++ gcmSeal key iv [] pt).set i v)
      = Except.error EncryptionError.AeadError := by
  have hslen : (gcmSeal key iv [] pt).length = pt.length + 16 := gcmSeal_length key iv [] pt
  rw [List.set_append, hiv]
  by_cases hcase : i < 12
  · rw [if_pos hcase]
    have hset_len : (iv.set i v).length = 12 := by rw [List.length_set, hiv]
    rw [decrypt_bytes]
    rw [if_neg (by simp only [List.length_append, hset_len, hslen, IV_SIZE]; omega)]
    have htake : ((iv.set i v) ++ gcmSeal key iv [] pt).take IV_SIZE = iv.set i v := by
      rw [IV_SIZE, ← hset_len, List.take_left]
    have hdrop : ((iv.set i v) ++ gcmSeal key iv [] pt).drop IV_SIZE
        = gcmSeal key iv [] pt := by
      rw [IV_SIZE, ← hset_len, List.drop_left]
    simp only [htake, hdrop, if_pos hk]
    have hopen : gcmOpen key (iv.set i v) [] (gcmSeal key iv [] pt) = none := by
      cases hop : gcmOpen key (iv.set i v) [] (gcmSeal key iv [] pt) with
      | none => rfl
      | some p =>
        exfalso
        have hivset : iv = iv.set i v := (gcmSeal_inj (gcmOpen_rigid hop)).2.1
        apply hv
        have hvi : v = iv.getD i 0 := by
          rw [← getD_set_self iv i v (by omega), ← hivset]
        rw [getD_append_left _ _ _ (by omega)]
        exact hvi
    rw [hopen]
  · rw [if_neg hcase]
    have hj : i - 12 < pt.length + 16 := by omega
    rw [decrypt_bytes]
    rw [if_neg (by simp only [List.length_append, hiv, List.length_set, hslen, IV_SIZE]; omega)]
    have htake : (iv ++ (gcmSeal key iv [] pt).set (i - 12) v).take IV_SIZE = iv := by
      rw [IV_SIZE, ← hiv, List.take_left]
    have hdrop : (iv ++ (gcmSeal key iv [] pt).set (i - 12) v).drop IV_SIZE
        = (gcmSeal key iv [] pt).set (i - 12) v := by
      rw [IV_SIZE, ← hiv, List.drop_left]
    simp only [htake, hdrop, if_pos hk]
    have hv2 : v ≠ (gcmSeal key iv [] pt).getD (i - 12) 0 := by
      intro hcontra
      apply hv
      rw [getD_append_right _ _ _ (by omega) (by rw [hiv, hslen]; omega), hiv]
      exact hcontra
    rw [gcmOpen_set_ne key iv [] pt (i - 12) v hj hv2]

/-- C5 witness: flip the first nonce byte of a concrete blob. -/
theorem decrypt_rejects_byte_flip_witness :
    decrypt_bytes (List.replicate 32 0)
        (([0, 0, 0, 0, 0, 0, 0, 0, 0, 0, 0, 0]
          ++ gcmSeal (List.replicate 32 0) [0, 0, 0, 0, 0, 0, 0, 0, 0, 0, 0, 0] [] [7]).set 0 1)
      = Except.error EncryptionError.AeadError :=
  decrypt_rejects_byte_flip (List.replicate 32 0) [0, 0, 0, 0, 0, 0, 0, 0, 0, 0, 0, 0]
    [7] 0 1 (by decide) (by decide) (by decide) (by decide)

/-- C6: on input of length at most 12 bytes, `decrypt_bytes` fails with the
"Data too short" decryption error for every key, of any length; the error is
distinct from `AeadError` and the result never depends on the key. -/
theorem decrypt_short_input (key data : List Nat) (h : data.length ≤ 12) :
    decrypt_bytes key data = Except.error (EncryptionError.Decryption "Data too short") ∧
    EncryptionError.Decryption "Data too short" ≠ EncryptionError.AeadError ∧
    (∀ key₂ : List Nat, decrypt_bytes key₂ data = decrypt_bytes key data) := by
  have hshort : ∀ k : List Nat, decrypt_bytes k data
      = Except.error (EncryptionError.Decryption "Data too short") := by
    intro k
    rw [decrypt_bytes, if_pos (by rw [IV_SIZE]; exact h)]
  exact ⟨hshort key, by decide, fun key₂ => by rw [hshort key₂, hshort key]⟩

/-- C6 witness: a 12-byte blob under keys of two different lengths. -/
theorem decrypt_short_input_witness :
    decrypt_bytes (List.replicate 32 0) [1, 2, 3, 4, 5, 6, 7, 8, 9, 10, 11, 12]
      = Except.error (EncryptionError.Decryption "Data too short") ∧
    EncryptionError.Decryption "Data too short" ≠ EncryptionError.AeadError ∧
    (∀ key₂ : List Nat, decrypt_bytes key₂ [1, 2, 3, 4, 5, 6, 7, 8, 9, 10, 11, 12]
      = decrypt_bytes (List.replicate 32 0) [1, 2, 3, 4, 5, 6, 7, 8, 9, 10, 11, 12]) :=
  decrypt_short_input (List.replicate 32 0) [1, 2, 3, 4, 5, 6, 7, 8, 9, 10, 11, 12] (by decide)

/-! ## Key manager, `src/crates/encryption/src/key_manager.rs`

The external `argon2` crate's Argon2id call (fixed parameters: 19456 KiB,
2 iterations, parallelism 1, 32-byte output) is the function parameter `kdf`,
taking the password bytes and the salt string; `OsRng`-generated salts are the
explicit `fresh` arguments.  The `Arc<RwLock<...>>` around the key is
collapsed to the value it guards: operations are modelled in their
lock-serialized order. -/

/-- `KeyState` (`key_manager.rs:9-14`). -/
inductive KeyState where
  | Unavailable
  | Available
deriving DecidableEq, Repr

/-- `SecureKey` (`key_manager.rs:17-22`): holds the 32 key bytes.  In the
source the struct is `#[derive(Zeroize, ZeroizeOnDrop)]` but the single field
`key` carries `#[zeroize(skip)]` (`key_manager.rs:20`). -/
structure SecureKey where
  key : List Nat
deriving DecidableEq, Repr

/-- The field-wise zeroization generated by `#[derive(Zeroize)]` and run by
`ZeroizeOnDrop` when a `SecureKey` is dropped (on `clear_key`, on install of a
replacement key, or on container destruction): every field NOT marked
`#[zeroize(skip)]` is overwritten with zeros.  The only field, `key`, is
marked `#[zeroize(skip)]`, so it is kept as is. -/
def SecureKey.zeroize (sk : SecureKey) : SecureKey :=
  { key := sk.key }

/-- The bytes the dropped container's backing storage still holds after the
`ZeroizeOnDrop` destructor has run. -/
def droppedKeyBytes (sk : SecureKey) : List Nat :=
  (SecureKey.zeroize sk).key

/-- `KeyManager` (`key_manager.rs:37-42`). -/
structure KeyManager where
  key : Option SecureKey
  salt : Option String
deriving DecidableEq, Repr

namespace KeyManager

/-- `KeyManager::new` (`key_manager.rs:46-51`). -/
def new : KeyManager :=
  { key := none, salt := none }

/-- `KeyManager::state` (`key_manager.rs:54-60`). -/
def state (km : KeyManager) : KeyState :=
  match km.key with
  | some _ => KeyState.Available
  | none => KeyState.Unavailable

/-- `KeyManager::set_salt` (`key_manager.rs:63-65`). -/
def set_salt (km : KeyManager) (salt : String) : KeyManager :=
  { km with salt := some salt }

/-- `KeyManager::generate_salt` (`key_manager.rs:73-77`); `fresh` is the
`SaltString::generate(&mut OsRng)` draw. -/
def generate_salt (km : KeyManager) (fresh : String) : KeyManager × String :=
  ({ km with salt := some fresh }, fresh)

/-- `KeyManager::derive_key` (`key_manager.rs:80-101`): use the stored salt or
generate one, run Argon2id (`kdf`), and on success install the derived bytes
as the new `SecureKey`.  On a `kdf` error nothing is installed. -/
def derive_key (kdf : List Nat → String → Except EncryptionError (List Nat))
    (fresh : String) (km : KeyManager) (password : List Nat) :
    KeyManager × Except EncryptionError Unit :=
  let step :=
    match km.salt with
    | some s => (km, s)
    | none => km.generate_salt fresh
  match kdf password step.2 with
  | Except.ok key_bytes => ({ step.1 with key := some ⟨key_bytes⟩ }, Except.ok ())
  | Except.error e => (step.1, Except.error e)

/-- `KeyManager::get_key` (`key_manager.rs:104-109`): a copy of the key bytes,
or `KeyNotAvailable`. -/
def get_key (km : KeyManager) : Except EncryptionError (List Nat) :=
  match km.key with
  | some secure_key => Except.ok secure_key.key
  | none => Except.error EncryptionError.KeyNotAvailable

/-- `KeyManager::clear_key` (`key_manager.rs:111-114`): drops any stored
`SecureKey` by overwriting the option with `None`. -/
def clear_key (km : KeyManager) : KeyManager :=
  { km with key := none }

end KeyManager

/-! ## Plugin layer, `src/plugins/encryption/src/{error,store,ext,commands}.rs`

The salt file (`app_data_dir/encryption_salt`) is modelled as an in-memory
`Option String` cell; `save_salt`/`load_salt` are the success paths of the
file I/O in `ext.rs:121-149` (a missing file reads as `none`). -/

/-- `Error` from `src/plugins/encryption/src/error.rs`. -/
inductive PluginError where
  | Encryption (e : EncryptionError)
  | NotEnabled
  | AlreadyEnabled
  | IncorrectPassword
  | PasswordRequired
  | SaltNotFound
  | SaltSaveFailed (msg : String)
  | SaltLoadFailed (msg : String)
  | Tauri (msg : String)
  | Io (msg : String)
  | Other (msg : String)
deriving DecidableEq, Repr

/-- The plugin-managed state reachable from the tauri app handle: the shared
`KeyManager` (`store.rs`) and the persisted salt file. -/
structure AppWorld where
  key_manager : KeyManager
  salt_file : Option String
deriving DecidableEq, Repr

/-- `save_salt` (`ext.rs:121-134`), success path: the file now holds `salt`. -/
def save_salt (w : AppWorld) (salt : String) : AppWorld :=
  { w with salt_file := some salt }

/-- `load_salt` (`ext.rs:136-149`), success path. -/
def load_salt (w : AppWorld) : Option String :=
  w.salt_file

/-- `password.as_bytes()`: the bytes of a password string (modelled as the
codepoint list; only determinism of the mapping matters here). -/
def strAsBytes (s : String) : List Nat :=
  s.data.map Char.toNat

/-- `unlock_app` (`ext.rs:38-56`): load the salt (or generate and save a new
one), derive the key from the password, report whether the key is available. -/
def unlock_app (kdf : List Nat → String → Except EncryptionError (List Nat))
    (fresh : String) (w : AppWorld) (password : String) :
    AppWorld × Except PluginError Bool :=
  let km := w.key_manager
  let step :=
    match load_salt w with
    | some salt => (km.set_salt salt, w)
    | none =>
        let generated := km.generate_salt fresh
        (generated.1, save_salt w generated.2)
  match KeyManager.derive_key kdf fresh step.1 (strAsBytes password) with
  | (km₂, Except.ok _) =>
      ({ step.2 with key_manager := km₂ },
        Except.ok (decide (km₂.state = KeyState.Available)))
  | (km₂, Except.error e) =>
      ({ step.2 with key_manager := km₂ }, Except.error (PluginError.Encryption e))

/-- `lock_app` (`ext.rs:58-66`): clear the key; always `Ok`. -/
def lock_app (w : AppWorld) : AppWorld × Except PluginError Unit :=
  ({ w with key_manager := w.key_manager.clear_key }, Except.ok ())

/-- `get_encryption_status` (`ext.rs:68-74`). -/
def get_encryption_status (w : AppWorld) : Except PluginError Bool :=
  Except.ok (decide (w.key_manager.state = KeyState.Available))

/-- `change_password` (`ext.rs:76-98`): require a salt, derive from the old
password against the current salt, check the container is `Available`,
generate a new salt, derive from the new password, and only then save the new
salt.  `fresh` is the `generate_salt` draw for the new salt (also passed to
`derive_key` for its — here unreachable — missing-salt branch). -/
def change_password (kdf : List Nat → String → Except EncryptionError (List Nat))
    (fresh : String) (w : AppWorld) (old_password new_password : String) :
    AppWorld × Except PluginError Unit :=
  let km := w.key_manager
  match km.salt with
  | none => (w, Except.error PluginError.SaltNotFound)
  | some _old_salt =>
    match KeyManager.derive_key kdf fresh km (strAsBytes old_password) with
    | (km₁, Except.error e) =>
        ({ w with key_manager := km₁ }, Except.error (PluginError.Encryption e))
    | (km₁, Except.ok _) =>
        if km₁.state ≠ KeyState.Available then
          ({ w with key_manager := km₁ }, Except.error PluginError.IncorrectPassword)
        else
          let generated := km₁.generate_salt fresh
          match KeyManager.derive_key kdf fresh generated.1 (strAsBytes new_password) with
          | (km₃, Except.error e) =>
              ({ w with key_manager := km₃ }, Except.error (PluginError.Encryption e))
          | (km₃, Except.ok _) =>
              ({ key_manager := km₃, salt_file := some generated.2 }, Except.ok ())

/-- Command `unlock_app` (`commands.rs:9-18`): empty-password guard, then the
extension-trait `unlock_app`. -/
def unlock_app_command (kdf : List Nat → String → Except EncryptionError (List Nat))
    (fresh : String) (w : AppWorld) (password : String) :
    AppWorld × Except PluginError Bool :=
  if password.isEmpty then (w, Except.error PluginError.PasswordRequired)
  else unlock_app kdf fresh w password

/-- Command `lock_app` (`commands.rs:23-25`). -/
def lock_app_command (w : AppWorld) : AppWorld × Except PluginError Unit :=
  lock_app w

/-- Command `change_password` (`commands.rs:37-47`): empty-password guard on
either argument, then the extension-trait `change_password`. -/
def change_password_command (kdf : List Nat → String → Except EncryptionError (List Nat))
    (fresh : String) (w : AppWorld) (old_password new_password : String) :
    AppWorld × Except PluginError Unit :=
  if old_password.isEmpty || new_password.isEmpty then
    (w, Except.error PluginError.PasswordRequired)
  else change_password kdf fresh w old_password new_password

/-- C1 evidence (code bug): `#[zeroize(skip)]` sits on the only field of
`SecureKey`, so the `ZeroizeOnDrop` destructor that runs when `clear_key`
drops the container leaves the 32 key bytes readable — they are NOT
overwritten with zeros, contradicting the zeroization invariant. -/
theorem secure_key_not_zeroized_on_drop :
    droppedKeyBytes ⟨List.replicate 32 1⟩ = List.replicate 32 1 ∧
    droppedKeyBytes ⟨List.replicate 32 1⟩ ≠ List.replicate 32 0 ∧
    (KeyManager.clear_key { key := some ⟨List.replicate 32 1⟩, salt := none }).key = none :=
  ⟨rfl, by decide, rfl⟩

/-- The Argon2id stand-in used by the C2 evidence: deterministic, always
succeeds, output depends on password and salt. -/
def kdfAlways : List Nat → String → Except EncryptionError (List Nat) :=
  fun pw salt => Except.ok (List.replicate 31 0 ++ [pw.sum + salt.length])

/-- Concrete world for the C2 evidence: unlocked with password "correct"
under the persisted salt "salt0". -/
def worldC2 : AppWorld :=
  { key_manager :=
      { key := some ⟨List.replicate 31 0 ++ [(strAsBytes "correct").sum + 5]⟩,
        salt := some "salt0" },
    salt_file := some "salt0" }

/-- C2 evidence (code bug): `change_password` with the WRONG old password
"wrong" succeeds — it does not fail with `IncorrectPassword` (deriving from
any password installs a key, so the `Available` check at `ext.rs:84` can
never fire after a successful derivation) — and it replaces the persisted
salt, so the true old password can no longer re-derive the original key
against the stored salt. -/
theorem change_password_wrong_old_password_accepted :
    (change_password_command kdfAlways "salt1" worldC2 "wrong" "newpw").2 = Except.ok () ∧
    (change_password_command kdfAlways "salt1" worldC2 "wrong" "newpw").2
      ≠ Except.error PluginError.IncorrectPassword ∧
    (change_password_command kdfAlways "salt1" worldC2 "wrong" "newpw").1.salt_file
      = some "salt1" ∧
    worldC2.salt_file = some "salt0" ∧ "salt1" ≠ "salt0" :=
  ⟨rfl, fun h => Except.noConfusion h, rfl, rfl, by decide⟩

/-- C7: key derivation is deterministic — with the salt fixed, two runs of
`derive_key` (with independent RNG draws `fresh₁`, `fresh₂`) produce
byte-identical installed keys, namely the Argon2id output for (password,
salt), which is 32 bytes long. -/
theorem derive_key_deterministic
    (kdf : List Nat → String → Except EncryptionError (List Nat))
    (h32 : ∀ pw salt kb, kdf pw salt = Except.ok kb → kb.length = 32)
    (fresh₁ fresh₂ : String) (km : KeyManager) (password : List Nat)
    (s : String) (hs : km.salt = some s) (kb : List Nat)
    (hok : kdf password s = Except.ok kb) :
    KeyManager.derive_key kdf fresh₁ km password
      = KeyManager.derive_key kdf fresh₂ km password ∧
    (KeyManager.derive_key kdf fresh₁ km password).1.key = some ⟨kb⟩ ∧
    (KeyManager.derive_key kdf fresh₂ km password).1.key = some ⟨kb⟩ ∧
    kb.length = 32 := by
  refine ⟨?_, ?_, ?_, h32 password s kb hok⟩ <;>
    simp [KeyManager.derive_key, hs, hok]

/-- The Argon2id stand-in for the C7 witness. -/
def kdfConst : List Nat → String → Except EncryptionError (List Nat) :=
  fun _ _ => Except.ok (List.replicate 32 5)

/-- C7 witness: two runs with different RNG draws at a concrete manager. -/
theorem derive_key_deterministic_witness :
    KeyManager.derive_key kdfConst "draw-one" { key := none, salt := some "s" } [1, 2]
      = KeyManager.derive_key kdfConst "draw-two" { key := none, salt := some "s" } [1, 2] ∧
    (KeyManager.derive_key kdfConst "draw-one" { key := none, salt := some "s" } [1, 2]).1.key
      = some ⟨List.replicate 32 5⟩ ∧
    (KeyManager.derive_key kdfConst "draw-two" { key := none, salt := some "s" } [1, 2]).1.key
      = some ⟨List.replicate 32 5⟩ ∧
    (List.replicate 32 (5 : Nat)).length = 32 :=
  derive_key_deterministic kdfConst
    (fun pw salt kb h => by
      simp only [kdfConst, Except.ok.injEq] at h
      rw [← h]; decide)
    "draw-one" "draw-two" { key := none, salt := some "s" } [1, 2] "s" rfl
    (List.replicate 32 5) rfl

/-- C8: once the old-password derivation has succeeded (and the previously
installed key is the one derived from the old password against the current
salt), the new salt is persisted exactly when the new-password derivation
succeeds: on failure the persisted salt and the installed key are unchanged;
on success the new salt is persisted and the new key installed. -/
theorem change_password_commit_order
    (kdf : List Nat → String → Except EncryptionError (List Nat))
    (fresh : String) (w : AppWorld) (old_pw new_pw : String)
    (s : String) (kold : List Nat)
    (hs : w.key_manager.salt = some s)
    (hold : kdf (strAsBytes old_pw) s = Except.ok kold)
    (hkey : w.key_manager.key = some ⟨kold⟩) :
    (∀ e, kdf (strAsBytes new_pw) fresh = Except.error e →
      (change_password kdf fresh w old_pw new_pw).1.salt_file = w.salt_file ∧
      (change_password kdf fresh w old_pw new_pw).1.key_manager.key = w.key_manager.key ∧
      (change_password kdf fresh w old_pw new_pw).2
        = Except.error (PluginError.Encryption e)) ∧
    (∀ kb, kdf (strAsBytes new_pw) fresh = Except.ok kb →
      (change_password kdf fresh w old_pw new_pw).1.salt_file = some fresh ∧
      (change_password kdf fresh w old_pw new_pw).1.key_manager.key = some ⟨kb⟩ ∧
      (change_password kdf fresh w old_pw new_pw).2 = Except.ok ()) := by
  constructor
  · intro e he
    simp only [change_password, KeyManager.derive_key, KeyManager.generate_salt,
      KeyManager.state, hs, hold, he, hkey]
    exact ⟨rfl, rfl, rfl⟩
  · intro kb hkb
    simp only [change_password, KeyManager.derive_key, KeyManager.generate_salt,
      KeyManager.state, hs, hold, hkb]
    exact ⟨rfl, rfl, rfl⟩

/-- The Argon2id stand-in for the C8 witness: fails exactly on the new
password's bytes. -/
def kdfFailsOnNew : List Nat → String → Except EncryptionError (List Nat) :=
  fun pw _ =>
    if pw = strAsBytes "new1" then Except.error (EncryptionError.KeyDerivation "boom")
    else Except.ok (List.replicate 32 2)

/-- Concrete world for the C8 witness. -/
def worldC8 : AppWorld :=
  { key_manager := { key := some ⟨List.replicate 32 2⟩, salt := some "s0" },
    salt_file := some "s0" }

/-- C8 witness: a failing new-password derivation leaves the persisted salt
and the installed key unchanged. -/
theorem change_password_commit_order_witness :
    (change_password kdfFailsOnNew "s1" worldC8 "old1" "new1").1.salt_file
      = worldC8.salt_file ∧
    (change_password kdfFailsOnNew "s1" worldC8 "old1" "new1").1.key_manager.key
      = worldC8.key_manager.key ∧
    (change_password kdfFailsOnNew "s1" worldC8 "old1" "new1").2
      = Except.error (PluginError.Encryption (EncryptionError.KeyDerivation "boom")) :=
  (change_password_commit_order kdfFailsOnNew "s1" worldC8 "old1" "new1" "s0"
      (List.replicate 32 2) rfl rfl rfl).1
    (EncryptionError.KeyDerivation "boom") rfl

/-- C9: `clear_key` always succeeds and is idempotent — after it (and after
`lock_app`, which invokes it) the state is `Unavailable`, `get_key` fails
with `KeyNotAvailable`, and `get_encryption_status` reports `false`, from any
starting state. -/
theorem clear_key_idempotent_locks (km : KeyManager) (w : AppWorld) :
    KeyManager.state (KeyManager.clear_key km) = KeyState.Unavailable ∧
    KeyManager.clear_key (KeyManager.clear_key km) = KeyManager.clear_key km ∧
    KeyManager.get_key (KeyManager.clear_key km) = Except.error EncryptionError.KeyNotAvailable ∧
    (lock_app w).2 = Except.ok () ∧
    (lock_app w).1.key_manager = KeyManager.clear_key w.key_manager ∧
    get_encryption_status (lock_app w).1 = Except.ok false :=
  ⟨rfl, rfl, rfl, rfl, rfl, rfl⟩

/-- C10: the `unlock_app` command with an empty password fails with
`PasswordRequired` and changes nothing — the returned world is the input
world, independent of the KDF and of any RNG draw, so no salt is loaded or
generated and no key is derived. -/
theorem unlock_app_empty_password
    (kdf : List Nat → String → Except EncryptionError (List Nat))
    (fresh : String) (w : AppWorld) :
    unlock_app_command kdf fresh w "" = (w, Except.error PluginError.PasswordRequired) :=
  rfl

end Hyprnote
